import Mathlib

/-
Verification development for tools/subunit-trace.py: a shallow embedding of
the trace processor's pure helpers (cleanup_test_name, get_duration,
find_worker, print_attachments), the stateful Starts observer and the
show_outcome aggregator, together with theorems settling the specification
claims about them.

Conventions of the embedding:
* Python strings are modelled as Lean String (or List Char where index
  arithmetic matters); str.find is modelled by pyFind, returning -1 when the
  character is absent, exactly like Python.
* datetime values are modelled as integer microsecond counts; a timedelta is
  the integer difference.  Python floor division by a positive divisor
  coincides with Int.ediv / Int.emod, which is what the timedelta component
  functions use.
* Attachment contents are modelled by their decoded text (Content.as_text);
  byte-level MIME decoding is an external collaborator.
* Module-level mutable state (FAILS, RESULTS, the Starts instance state) is
  passed explicitly; each _output.write call is one element of an output
  list, or one piece of a concatenated output string.
-/

deriving instance DecidableEq for Except

/-- First index of character c in l, or none. Mirrors Python str.find
(successful case). -/
def findIdxC (c : Char) : List Char → Option Nat
  | [] => none
  | x :: xs => if x = c then some 0 else (findIdxC c xs).map (· + 1)

/-- Python str.find: first index of c in l, or -1 when absent. -/
def pyFind (c : Char) (l : List Char) : Int :=
  match findIdxC c l with
  | some n => (n : Int)
  | none => -1

/-- One stripping pass of cleanup_test_name for a delimiter pair: with
tags_start = name.find(opn) and tags_end = name.find(cls), if
tags_start > 0 and tags_end > tags_start, remove the span [tags_start,
tags_end] inclusive, else leave the name unchanged. -/
def stripDelim (opn cls : Char) (name : List Char) : List Char :=
  let tags_start := pyFind opn name
  let tags_end := pyFind cls name
  if 0 < tags_start ∧ tags_start < tags_end then
    name.take tags_start.toNat ++ name.drop (tags_end.toNat + 1)
  else name

/-- cleanup_test_name: optionally strip a bracketed tag span, then
optionally strip a parenthesized scenario span (source defaults:
strip_tags=True, strip_scenarios=False). -/
def cleanup_test_name (name : List Char) ( strip_tags : Bool) ( strip_scenarios : Bool) : List Char :=
  let n1 := if strip_tags then stripDelim '[' ']' name else name
  if strip_scenarios then stripDelim '(' ')' n1 else n1

/-- DAY_SECONDS = 60 * 60 * 24 from the source. -/
def DAY_SECONDS : Int := 60 * 60 * 24

/-- Microseconds in a day, used by the timedelta normalization. -/
def dayUsec : Int := 86400000000

/-- Python timedelta.days of a delta of t microseconds (floor division;
divisor positive, so Int.ediv agrees with Python //). -/
def timedeltaDays (t : Int) : Int := t / dayUsec

/-- Python timedelta.seconds of a delta of t microseconds: the in-day
remainder, in whole seconds (always in [0, 86400)). -/
def timedeltaSeconds (t : Int) : Int := (t % dayUsec) / 1000000

/-- Python timedelta.microseconds of a delta of t microseconds (always in
[0, 1000000)). -/
def timedeltaMicroseconds (t : Int) : Int := t % 1000000

/-- Left pad a decimal string with zeros to width w. -/
def zfill (w : Nat) (s : String) : String :=
  String.mk (List.replicate (w - s.length) '0') ++ s

/-- Python '%06d' formatting of an integer. -/
def fmt06d (n : Int) : String :=
  if n < 0 then "-" ++ zfill 5 (toString (-n)) else zfill 6 (toString n)

/-- get_duration: empty string when either timestamp is missing, else
'%d.%06ds' of (delta.days * DAY_SECONDS + delta.seconds, delta.microseconds)
where delta = end - start. Timestamps are integer microsecond counts. -/
def get_duration (timestamps : Option Int × Option Int) : String :=
  match timestamps with
  | (some start, some stop) =>
    let delta := stop - start
    toString (timedeltaDays delta * DAY_SECONDS + timedeltaSeconds delta) ++
      "." ++ fmt06d (timedeltaMicroseconds delta) ++ "s"
  | _ => ""

/-- Python whitespace characters recognized by int() stripping (ASCII). -/
def isPyWS (c : Char) : Bool :=
  c = ' ' || c = '\t' || c = '\n' || c = '\x0d' || c = '\x0b' || c = '\x0c'

/-- Strip leading and trailing Python whitespace. -/
def stripPyWS (l : List Char) : List Char :=
  ((l.dropWhile isPyWS).reverse.dropWhile isPyWS).reverse

/-- After a leading digit, the rest of a CPython integer literal body:
digits, with single underscores allowed only between digits. -/
def digitsTail : List Char → Bool
  | [] => true
  | '_' :: rest =>
    match rest with
    | [] => false
    | c :: rest2 => c.isDigit && digitsTail rest2
  | c :: rest => c.isDigit && digitsTail rest

/-- CPython int(str) on ASCII input: strip whitespace, optional sign,
nonempty digit run with underscore separators; none models ValueError. -/
def pyInt? (s : String) : Option Int :=
  let l := stripPyWS s.toList
  let sgn : Bool × List Char :=
    match l with
    | '-' :: r => (true, r)
    | '+' :: r => (false, r)
    | r => (false, r)
  match sgn.2 with
  | [] => none
  | c :: rest =>
    if c.isDigit && digitsTail rest then
      let n : Nat :=
        ((c :: rest).filter (fun d => d ≠ '_')).foldl
          (fun a d => a * 10 + (d.toNat - 48)) 0
      some (if sgn.1 then -(n : Int) else (n : Int))
    else none

/-- Worker value returned by find_worker: a parsed integer id, or the
string sentinel 'NaN' when no worker- tag is present. -/
inductive Worker where
  | num : Int → Worker
  | nan : Worker
deriving DecidableEq, Repr

/-- Python '%s' rendering of the find_worker return value. -/
def Worker.str : Worker → String
  | .num n => toString n
  | .nan => "NaN"

/-- Python tag.startswith('worker-'), computed on character lists. -/
def isWorkerTag (tag : String) : Bool :=
  "worker-".toList.isPrefixOf tag.toList

/-- Python tag[7:], computed on character lists. -/
def tagRest (tag : String) : String :=
  (tag.toList.drop 7).asString

/-- find_worker: scan the tags in order; on the first tag starting with
'worker-', parse the remainder with int() (error models the ValueError
raised on an unparseable remainder); with no such tag return 'NaN'. -/
def find_worker (tags : List String) : Except String Worker :=
  match tags.find? isWorkerTag with
  | some tag =>
    match pyInt? (tagRest tag) with
    | some n => Except.ok (Worker.num n)
    | none => Except.error "ValueError"
  | none => Except.ok Worker.nan

/-- One attachment of a test record: the declared content type's primary
type and the decoded text (Content.as_text()). The source's retyping of a
'test' primary type to 'text' does not change as_text, so it is not
observable here. -/
structure Detail where
  ctype : String
  text : String
deriving DecidableEq, Repr

/-- A finalized test dictionary as handed to show_outcome by the
event-to-record builder: id, final status, tags, (first, last) timestamp
pair in integer microseconds, and the insertion-ordered attachment map. -/
structure TestRec where
  id : String
  status : String
  tags : List String
  timestamps : Option Int × Option Int
  details : List (String × Detail)
deriving DecidableEq, Repr

/-- Python s.split(c): split a character list at every occurrence of c
(empty input gives one empty field, like Python). -/
def splitOnC (c : Char) : List Char → List (List Char)
  | [] => [[]]
  | x :: xs =>
    if x = c then [] :: splitOnC c xs
    else
      match splitOnC c xs with
      | [] => [[x]]
      | h :: t => (x :: h) :: t

/-- print_attachments: for each attachment, truncate its name at the first
colon (Python name.split(':')[0]); if the channel matches (stdout/stderr,
or anything in all_channels mode) and the text is non-empty, emit a titled
block with a tilde rule and each text line indented four spaces. -/
def print_attachments (t : TestRec) (all_channels : Bool) : String :=
  String.join (t.details.map (fun p =>
    let name := (p.1.toList.takeWhile (fun c => c ≠ ':')).asString
    if (all_channels || name == "stdout" || name == "stderr") && p.2.text != "" then
      let title := "Captured " ++ name ++ ":"
      "\n" ++ title ++ "\n" ++ String.mk (List.replicate title.length '~') ++ "\n" ++
        String.join ((splitOnC '\n' p.2.text.toList).map
          (fun line => "    " ++ line.asString ++ "\n"))
    else ""))

/-- The module-level accumulating state: FAILS and RESULTS. -/
structure Tally where
  fails : List TestRec
  results : List (Worker × List TestRec)
deriving DecidableEq, Repr

/-- RESULTS[worker].append(test), creating the bucket lazily; mirrors a
Python dict keyed by worker with insertion order preserved. -/
def addResult (res : List (Worker × List TestRec)) (w : Worker) (t : TestRec) :
    List (Worker × List TestRec) :=
  match res with
  | [] => [(w, [t])]
  | (k, l) :: rest =>
    if k = w then (k, l ++ [t]) :: rest else (k, l) :: addResult rest w t

/-- Total number of records held across all worker buckets. -/
def sumSizes (res : List (Worker × List TestRec)) : Nat :=
  (res.map (fun p => p.2.length)).sum

/-- Dictionary lookup in a record's details, as Python test['details'][k]
(none models the KeyError on a missing key). -/
def lookupDetail (t : TestRec) (k : String) : Option Detail :=
  (t.details.find? (fun p => p.1 == k)).map (fun p => p.2)

/-- show_outcome: early return on status 'exists'; resolve the worker (a
ValueError aborts), clean the name, compute the duration, append the
record to its worker bucket, then early return when the cleaned name is
'process-returncode'; otherwise format one line by status (appending to
FAILS on 'fail') and print attachments per the status's channel policy.
The returned string is everything written to the stream for this record. -/
def show_outcome (st : Tally) (t : TestRec) : Except String (Tally × String) :=
  if t.status = "exists" then Except.ok (st, "")
  else
    match find_worker t.tags with
    | Except.error e => Except.error e
    | Except.ok worker =>
      let name := cleanup_test_name t.id.toList true false
      let duration := get_duration t.timestamps
      let st1 : Tally := { st with results := addResult st.results worker t }
      if name = "process-returncode".toList then Except.ok (st1, "")
      else if t.status = "success" then
        Except.ok (st1, "\x7b" ++ worker.str ++ "\x7d " ++ name.asString ++
          " [" ++ duration ++ "] ... ok\n" ++ print_attachments t false)
      else if t.status = "fail" then
        Except.ok ({ st1 with fails := st1.fails ++ [t] },
          "\x7b" ++ worker.str ++ "\x7d " ++ name.asString ++
            " [" ++ duration ++ "] ... FAILED\n" ++ print_attachments t true)
      else if t.status = "skip" then
        match lookupDetail t "reason" with
        | none => Except.error "KeyError"
        | some d =>
          Except.ok (st1, "\x7b" ++ worker.str ++ "\x7d " ++ name.asString ++
            " ... SKIPPED: " ++ d.text ++ "\n")
      else
        Except.ok (st1, "\x7b" ++ worker.str ++ "\x7d " ++ name.asString ++
          " [" ++ duration ++ "] ... " ++ t.status ++ "\n" ++ print_attachments t true)

/-- Feed a list of finalized records through show_outcome in order,
threading the FAILS/RESULTS state and concatenating the stream output; an
exception aborts the run. -/
def processRecords (st : Tally) : List TestRec → Except String (Tally × String)
  | [] => Except.ok (st, "")
  | t :: rest =>
    match show_outcome st t with
    | Except.error e => Except.error e
    | Except.ok p =>
      match processRecords p.1 rest with
      | Except.error e => Except.error e
      | Except.ok q => Except.ok (q.1, p.2 ++ q.2)

/-- Fixture: a plain success record with no tags and no timestamps. -/
def recA : TestRec := ⟨"test_a", "success", [], (none, none), []⟩

/-- Fixture: a fail record named process-returncode. -/
def recPR : TestRec := ⟨"process-returncode", "fail", [], (none, none), []⟩

/-- Fixture: a fail record with no tags, as in the spec's second
end-to-end scenario (modulo attachments). -/
def recB : TestRec := ⟨"test_b", "fail", [], (none, none), []⟩

/-- A decoded stream event, with the fields the Starts observer consults.
file_bytes carries the decoded text of the attachment payload (none when
the event has no payload). Timestamps are integer microseconds. -/
structure Event where
  test_id : Option String
  test_status : Option String
  test_tags : Option (List String)
  file_bytes : Option String
  timestamp : Option Int
deriving DecidableEq, Repr

/-- Python truthiness of an optional string (None and '' are falsy). -/
def pyTruthy (o : Option String) : Bool :=
  match o with
  | none => false
  | some s => s != ""

/-- State of the Starts observer after startTestRun: the pending-newline
flag and the set of identifiers already given a start line. -/
structure Starts where
  neednewline : Bool
  emitted : List String
deriving DecidableEq, Repr

/-- One call to _output.write made by the Starts observer: free-form text,
the pending-newline flush, or the start line (worker label, test id; the
timestamp prefix of the only reachable write is the empty string). -/
inductive OutWrite where
  | text : String → OutWrite
  | nl : OutWrite
  | startLine : String → String → OutWrite
deriving DecidableEq, Repr

/-- The exact string passed to _output.write for each write. -/
def OutWrite.render : OutWrite → String
  | .text s => s
  | .nl => "\n"
  | .startLine worker tid => ": " ++ worker ++ tid ++ " [start]\n"

/-- Worker label for the start line: scan all tags, remembering the label
of the last tag starting with 'worker-' (the loop has no break), empty
when none matches. -/
def workerLabel (tags : Option (List String)) : String :=
  (tags.getD []).foldl
    (fun w tag => if isWorkerTag tag then "(" ++ tagRest tag ++ ") " else w) ""

/-- True when the free-form text forces the pending-newline flag: nonempty
and not ending in a carriage return or newline. -/
def needsNewline (text : String) : Bool :=
  match text.toList.getLast? with
  | some c => c ≠ '\x0d' && c ≠ '\n'
  | none => false

/-- Starts.status on one event: with no (truthy) test id, forward nonempty
payload text to output, setting the pending-newline flag when the text
does not end in a line terminator; with an id, status 'inprogress' and an
id not yet emitted, flush a pending newline, then (only when the timestamp
is absent — the write statement is indented under the else branch in the
source) write the start line, and in both cases mark the id emitted. All
other events are ignored. -/
def Starts.status (s : Starts) (e : Event) : Starts × List OutWrite :=
  if pyTruthy e.test_id = false then
    if pyTruthy e.file_bytes = false then (s, [])
    else if needsNewline (e.file_bytes.getD "") then
      ({ s with neednewline := true }, [OutWrite.text (e.file_bytes.getD "")])
    else (s, [OutWrite.text (e.file_bytes.getD "")])
  else if e.test_status = some "inprogress" ∧ e.test_id.getD "" ∉ s.emitted then
    if e.timestamp.isSome then
      (⟨false, e.test_id.getD "" :: s.emitted⟩,
        if s.neednewline then [OutWrite.nl] else [])
    else
      (⟨false, e.test_id.getD "" :: s.emitted⟩,
        (if s.neednewline then [OutWrite.nl] else []) ++
          [OutWrite.startLine (workerLabel e.test_tags) (e.test_id.getD "")])
  else (s, [])

/-- Run the Starts observer over a whole event sequence, concatenating the
writes, from a given post-startTestRun state. -/
def startsRun (s : Starts) : List Event → Starts × List OutWrite
  | [] => (s, [])
  | e :: rest =>
    let p := Starts.status s e
    let q := startsRun p.1 rest
    (q.1, p.2 ++ q.2)

/-- True when the write is the start line of the given identifier. -/
def OutWrite.isStartOf (o : OutWrite) (tid : String) : Bool :=
  match o with
  | .startLine _ i => i == tid
  | _ => false

/-- Number of start lines written for the given identifier. -/
def countStarts (tid : String) (l : List OutWrite) : Nat :=
  l.countP (fun o => o.isStartOf tid)

/-- C4 counterexample: the claim conditions only on the record identifier
not being process-returncode, but the source compares the CLEANED name:
a success record with identifier process-returncode[p] (which is not
process-returncode) normalizes to process-returncode and is returned
before any line is written, instead of producing the claimed ok line. -/
theorem c4_counterexample :
    (show_outcome ⟨[], []⟩
        ⟨"process-returncode[p]", "success", [], (none, none), []⟩).map
        (fun p => p.2) = Except.ok "" ∧
    ("" : String) ≠ "\x7bNaN\x7d process-returncode [] ... ok\n" := by
  exact ⟨by decide, by decide⟩

/-- C4 (amended): for a record whose status is neither exists nor
inprogress and whose NORMALIZED name is not process-returncode, with a
resolvable worker: success writes the ok line and prints standard-channel
attachments only; fail appends the record to the failure list, writes the
FAILED line, and prints all attachments; any status other than
success/fail/skip writes the line ending in the status itself and prints
all attachments rather than being rejected. -/
theorem c4_outcome_format (st : Tally) (t : TestRec) (w : Worker)
    (hw : find_worker t.tags = Except.ok w)
    (hne : t.status ≠ "exists")
    (hnp : cleanup_test_name t.id.toList true false ≠ "process-returncode".toList) :
    (t.status = "success" →
      show_outcome st t = Except.ok
        ({ st with results := addResult st.results w t },
          "\x7b" ++ w.str ++ "\x7d " ++
            (cleanup_test_name t.id.toList true false).asString ++
            " [" ++ get_duration t.timestamps ++ "] ... ok\n" ++
            print_attachments t false)) ∧
    (t.status = "fail" →
      show_outcome st t = Except.ok
        (⟨st.fails ++ [t], addResult st.results w t⟩,
          "\x7b" ++ w.str ++ "\x7d " ++
            (cleanup_test_name t.id.toList true false).asString ++
            " [" ++ get_duration t.timestamps ++ "] ... FAILED\n" ++
            print_attachments t true)) ∧
    (t.status ≠ "success" → t.status ≠ "fail" → t.status ≠ "skip" →
      show_outcome st t = Except.ok
        ({ st with results := addResult st.results w t },
          "\x7b" ++ w.str ++ "\x7d " ++
            (cleanup_test_name t.id.toList true false).asString ++
            " [" ++ get_duration t.timestamps ++ "] ... " ++ t.status ++ "\n" ++
            print_attachments t true)) := by
  refine ⟨fun hsu => ?_, fun hfa => ?_, fun h1 h2 h3 => ?_⟩
  · simp only [show_outcome, hw]
    rw [if_neg hne, if_neg hnp, if_pos hsu]
  · simp only [show_outcome, hw]
    rw [if_neg hne, if_neg hnp, if_neg (by rw [hfa]; decide), if_pos hfa]
  · simp only [show_outcome, hw]
    rw [if_neg hne, if_neg hnp, if_neg h1, if_neg h2, if_neg h3]

/-- C4 witness: the amended statement instantiated at a concrete success
record with a worker-0 tag and a 1-second duration. -/
theorem c4_outcome_format_witness :
    show_outcome ⟨[], []⟩
        ⟨"test_a", "success", ["worker-0"], (some 1000000, some 2000000), []⟩ =
      Except.ok (⟨[], [(Worker.num 0,
        [⟨"test_a", "success", ["worker-0"], (some 1000000, some 2000000), []⟩])]⟩,
        "\x7b0\x7d test_a [1.000000s] ... ok\n") := by
  exact (c4_outcome_format ⟨[], []⟩
    ⟨"test_a", "success", ["worker-0"], (some 1000000, some 2000000), []⟩
    (Worker.num 0) (by decide) (by decide) (by decide)).1 rfl

/-- Appending a record to a worker bucket grows the total bucket size by
exactly one, whichever worker it lands on. -/
theorem sumSizes_addResult (res : List (Worker × List TestRec)) (w : Worker)
    (t : TestRec) :
    sumSizes (addResult res w t) = sumSizes res + 1 := by
  induction res with
  | nil => simp [addResult, sumSizes]
  | cons p rest ih =>
    obtain ⟨k, l⟩ := p
    by_cases hk : k = w
    · simp [addResult, hk, sumSizes]
      omega
    · simp only [addResult, if_neg hk, sumSizes, List.map_cons, List.sum_cons] at *
      omega

/-- One show_outcome call, when it returns, grows the total bucket size by
one unless the record's status is exists — in particular also for records
named process-returncode, which are appended before the early return. -/
theorem show_outcome_sum (st : Tally) (t : TestRec) (st' : Tally)
    (out : String) (h : show_outcome st t = Except.ok (st', out)) :
    sumSizes st'.results =
      sumSizes st.results + (if t.status = "exists" then 0 else 1) := by
  by_cases hs : t.status = "exists"
  · rw [show_outcome, if_pos hs] at h
    obtain ⟨rfl, rfl⟩ : st = st' ∧ "" = out := by
      simpa [Prod.ext_iff] using h
    simp [hs]
  · cases hw : find_worker t.tags with
    | error e =>
      rw [show_outcome, if_neg hs] at h
      rw [hw] at h
      cases h
    | ok w =>
      simp only [show_outcome, if_neg hs, hw] at h
      rw [if_neg hs]
      split at h
      · obtain ⟨rfl, rfl⟩ : _ ∧ _ := by simpa [Prod.ext_iff] using h
        simp [sumSizes_addResult]
      · split at h
        · obtain ⟨rfl, rfl⟩ : _ ∧ _ := by simpa [Prod.ext_iff] using h
          simp [sumSizes_addResult]
        · split at h
          · obtain ⟨rfl, rfl⟩ : _ ∧ _ := by simpa [Prod.ext_iff] using h
            simp [sumSizes_addResult]
          · split at h
            · split at h
              · cases h
              · obtain ⟨rfl, rfl⟩ : _ ∧ _ := by simpa [Prod.ext_iff] using h
                simp [sumSizes_addResult]
            · obtain ⟨rfl, rfl⟩ : _ ∧ _ := by simpa [Prod.ext_iff] using h
              simp [sumSizes_addResult]

/-- C3 counterexample: a single terminal record for the one distinct
identifier process-returncode IS appended to its worker bucket (the append
precedes the name check in the source), so the bucket sizes sum to 1,
while the claim predicts 1 - 1 = 0. -/
theorem c3_counterexample :
    (processRecords ⟨[], []⟩
        [⟨"process-returncode", "success", [], (none, none), []⟩]).map
        (fun p => sumSizes p.1.results) = Except.ok 1 ∧
    (1 : Nat) ≠ 1 - 1 := by
  exact ⟨by decide, by decide⟩

/-- C3 (amended): over any record sequence the Outcome Aggregator
completes, the total growth of the per-worker bucket sizes is the number
of records whose status is not exists: exists records are skipped, but
process-returncode records are counted in the buckets (they are excluded
only from printing and from the failure list). -/
theorem c3_bucket_sum (recs : List TestRec) :
    ∀ (g t' : Tally) (out : String),
      processRecords g recs = Except.ok (t', out) →
      sumSizes t'.results = sumSizes g.results +
        recs.countP (fun r => r.status != "exists") := by
  induction recs with
  | nil =>
    intro g t' out h
    obtain ⟨rfl, rfl⟩ : g = t' ∧ "" = out := by
      simpa [processRecords, Prod.ext_iff] using h
    simp
  | cons t rest ih =>
    intro g t' out h
    rw [processRecords] at h
    cases hso : show_outcome g t with
    | error e =>
      simp only [hso] at h
      exact Except.noConfusion h
    | ok p =>
      simp only [hso] at h
      cases hpr : processRecords p.1 rest with
      | error e =>
        simp only [hpr] at h
        exact Except.noConfusion h
      | ok q =>
        simp only [hpr] at h
        obtain ⟨rfl, rfl⟩ : q.1 = t' ∧ p.2 ++ q.2 = out := by
          simpa [Prod.ext_iff] using h
        have h1 := show_outcome_sum g t p.1 p.2 (by
          rw [hso])
        have h2 := ih p.1 q.1 q.2 (by
          rw [hpr])
        rw [List.countP_cons]
        by_cases hs : t.status = "exists"
        · rw [if_pos hs] at h1
          have hb : (t.status != "exists") = false := by
            simp [hs]
          rw [hb]
          simp only [if_neg Bool.false_ne_true]
          omega
        · have hb : (t.status != "exists") = true := by
            simpa using hs
          rw [hb, if_pos rfl]
          rw [if_neg hs] at h1
          omega

/-- C3 witness: a success record and a process-returncode record together
grow the buckets by two — the process-returncode record is counted. -/
theorem c3_bucket_sum_witness :
    sumSizes (⟨[], [(Worker.nan, [recA, recPR])]⟩ : Tally).results =
      sumSizes (⟨[], []⟩ : Tally).results +
        [recA, recPR].countP (fun r => r.status != "exists") :=
  c3_bucket_sum [recA, recPR] ⟨[], []⟩ ⟨[], [(Worker.nan, [recA, recPR])]⟩
    "\x7bNaN\x7d test_a [] ... ok\n" (by decide)

/-- For a fixed record, one show_outcome call behaves uniformly in the
carried state: either it raises the same exception whatever the state, or
it returns the same output string whatever the state and extends the
state's failure list by the same (record-determined) suffix. -/
theorem show_outcome_shape (t : TestRec) :
    (∃ e, ∀ st, show_outcome st t = Except.error e) ∨
    (∃ out d, ∀ st : Tally, ∃ r, show_outcome st t =
      Except.ok (⟨st.fails ++ d, r⟩, out)) := by
  by_cases hs : t.status = "exists"
  · right
    refine ⟨"", [], fun st => ⟨st.results, ?_⟩⟩
    rw [show_outcome, if_pos hs]
    simp
  · cases hw : find_worker t.tags with
    | error e =>
      left
      refine ⟨e, fun st => ?_⟩
      simp only [show_outcome, if_neg hs, hw]
    | ok w =>
      by_cases hpr : cleanup_test_name t.id.toList true false =
        "process-returncode".toList
      · right
        refine ⟨"", [], fun st => ⟨addResult st.results w t, ?_⟩⟩
        simp only [show_outcome, if_neg hs, hw, if_pos hpr]
        simp
      · by_cases hsu : t.status = "success"
        · right
          refine ⟨"\x7b" ++ w.str ++ "\x7d " ++
            (cleanup_test_name t.id.toList true false).asString ++
            " [" ++ get_duration t.timestamps ++ "] ... ok\n" ++
            print_attachments t false, [],
            fun st => ⟨addResult st.results w t, ?_⟩⟩
          simp only [show_outcome, if_neg hs, hw, if_neg hpr, if_pos hsu]
          simp
        · by_cases hfa : t.status = "fail"
          · right
            refine ⟨"\x7b" ++ w.str ++ "\x7d " ++
              (cleanup_test_name t.id.toList true false).asString ++
              " [" ++ get_duration t.timestamps ++ "] ... FAILED\n" ++
              print_attachments t true, [t],
              fun st => ⟨addResult st.results w t, ?_⟩⟩
            simp only [show_outcome, if_neg hs, hw, if_neg hpr, if_neg hsu,
              if_pos hfa]
          · by_cases hsk : t.status = "skip"
            · cases hrd : lookupDetail t "reason" with
              | none =>
                left
                refine ⟨"KeyError", fun st => ?_⟩
                simp only [show_outcome, if_neg hs, hw, if_neg hpr,
                  if_neg hsu, if_neg hfa, if_pos hsk, hrd]
              | some d0 =>
                right
                refine ⟨"\x7b" ++ w.str ++ "\x7d " ++
                  (cleanup_test_name t.id.toList true false).asString ++
                  " ... SKIPPED: " ++ d0.text ++ "\n", [],
                  fun st => ⟨addResult st.results w t, ?_⟩⟩
                simp only [show_outcome, if_neg hs, hw, if_neg hpr,
                  if_neg hsu, if_neg hfa, if_pos hsk, hrd]
                simp
            · right
              refine ⟨"\x7b" ++ w.str ++ "\x7d " ++
                (cleanup_test_name t.id.toList true false).asString ++
                " [" ++ get_duration t.timestamps ++ "] ... " ++
                t.status ++ "\n" ++ print_attachments t true, [],
                fun st => ⟨addResult st.results w t, ?_⟩⟩
              simp only [show_outcome, if_neg hs, hw, if_neg hpr,
                if_neg hsu, if_neg hfa, if_neg hsk]
              simp

/-- The whole run behaves uniformly in the initial state: runs from any
two initial states raise the same exceptions, or produce the same output
and extend their respective initial failure lists by the same suffix. -/
theorem processRecords_shape (recs : List TestRec) :
    ∀ s₁ s₂ : Tally,
      (∀ e, processRecords s₁ recs = Except.error e ↔
        processRecords s₂ recs = Except.error e) ∧
      (∀ t₁ o₁, processRecords s₁ recs = Except.ok (t₁, o₁) →
        ∃ t₂, processRecords s₂ recs = Except.ok (t₂, o₁) ∧
          ∃ core, t₁.fails = s₁.fails ++ core ∧
            t₂.fails = s₂.fails ++ core) := by
  induction recs with
  | nil =>
    intro s₁ s₂
    constructor
    · intro e
      simp [processRecords]
    · intro t₁ o₁ h
      obtain ⟨rfl, rfl⟩ : s₁ = t₁ ∧ "" = o₁ := by
        simpa [processRecords, Prod.ext_iff] using h
      exact ⟨s₂, rfl, [], by simp, by simp⟩
  | cons t rest ih =>
    intro s₁ s₂
    rcases show_outcome_shape t with ⟨e₀, he⟩ | ⟨out, d, hok⟩
    · have h₁ : processRecords s₁ (t :: rest) = Except.error e₀ := by
        rw [processRecords]
        simp only [he s₁]
      have h₂ : processRecords s₂ (t :: rest) = Except.error e₀ := by
        rw [processRecords]
        simp only [he s₂]
      constructor
      · intro e
        rw [h₁, h₂]
      · intro t₁ o₁ h
        rw [h₁] at h
        exact Except.noConfusion h
    · obtain ⟨r₁, hp₁⟩ := hok s₁
      obtain ⟨r₂, hp₂⟩ := hok s₂
      have hu₁ : processRecords s₁ (t :: rest) =
          match processRecords (⟨s₁.fails ++ d, r₁⟩ : Tally) rest with
          | Except.error e => Except.error e
          | Except.ok q => Except.ok (q.1, out ++ q.2) := by
        rw [processRecords]
        simp only [hp₁]
      have hu₂ : processRecords s₂ (t :: rest) =
          match processRecords (⟨s₂.fails ++ d, r₂⟩ : Tally) rest with
          | Except.error e => Except.error e
          | Except.ok q => Except.ok (q.1, out ++ q.2) := by
        rw [processRecords]
        simp only [hp₂]
      have hih := ih ⟨s₁.fails ++ d, r₁⟩ ⟨s₂.fails ++ d, r₂⟩
      constructor
      · intro e
        rw [hu₁, hu₂]
        cases hq₁ : processRecords (⟨s₁.fails ++ d, r₁⟩ : Tally) rest with
        | error e₁ =>
          have hq₂ := (hih.1 e₁).mp hq₁
          rw [hq₂]
        | ok q₁ =>
          obtain ⟨q₂, hq₂, _⟩ := hih.2 q₁.1 q₁.2 (by rw [hq₁])
          rw [hq₂]
          constructor
          · intro hcon
            exact absurd hcon (by simp)
          · intro hcon
            exact absurd hcon (by simp)
      · intro t₁ o₁ h
        rw [hu₁] at h
        cases hq₁ : processRecords (⟨s₁.fails ++ d, r₁⟩ : Tally) rest with
        | error e₁ =>
          rw [hq₁] at h
          exact Except.noConfusion h
        | ok q₁ =>
          rw [hq₁] at h
          obtain ⟨rfl, rfl⟩ : q₁.1 = t₁ ∧ out ++ q₁.2 = o₁ := by
            simpa [Prod.ext_iff] using h
          obtain ⟨q₂, hq₂, core, hc₁, hc₂⟩ := hih.2 q₁.1 q₁.2 (by rw [hq₁])
          refine ⟨q₂, ?_, d ++ core, ?_, ?_⟩
          · rw [hu₂, hq₂]
          · rw [hc₁]
            simp
          · rw [hc₂]
            simp

/-- C9 counterexample: the failure list is module-level state that
survives into a second run in the same process: running the single fail
record test_b from a fresh state yields the failure list [test_b], but
running it again from the resulting state yields [test_b, test_b] — not
the tallies of a fresh first run. -/
theorem c9_counterexample :
    (processRecords ⟨[], []⟩ [recB]).map (fun p => p.1.fails) =
      Except.ok [recB] ∧
    (processRecords ⟨[recB], [(Worker.nan, [recB])]⟩ [recB]).map
        (fun p => p.1.fails) = Except.ok [recB, recB] ∧
    [recB, recB] ≠ [recB] := by
  refine ⟨by decide, by decide, by decide⟩

/-- C9 (amended): the run's output and abort behavior are independent of
the carried-over global state, but the tallies are not: a run started from
state g produces the same output and exceptions as a run from the fresh
state, while its final failure list is g's failure list with the fresh
run's failures appended (the per-worker buckets likewise accumulate), so a
second in-process run differs from a fresh one exactly in the tallies. -/
theorem c9_run_state (g : Tally) (recs : List TestRec) :
    (∀ e, processRecords g recs = Except.error e ↔
      processRecords ⟨[], []⟩ recs = Except.error e) ∧
    (∀ t o, processRecords g recs = Except.ok (t, o) →
      ∃ t0, processRecords ⟨[], []⟩ recs = Except.ok (t0, o) ∧
        t.fails = g.fails ++ t0.fails) := by
  obtain ⟨hiff, hok⟩ := processRecords_shape recs g ⟨[], []⟩
  refine ⟨hiff, fun t o h => ?_⟩
  obtain ⟨t₀, h₀, core, hc₁, hc₂⟩ := hok t o h
  refine ⟨t₀, h₀, ?_⟩
  rw [hc₁, hc₂]
  simp

/-- C9 witness: a second run of test_b from the state left by a first run
produces the first run's failure list extended by the fresh run's. -/
theorem c9_run_state_witness :
    ∃ t0, processRecords ⟨[], []⟩ [recB] = Except.ok
        (t0, "\x7bNaN\x7d test_b [] ... FAILED\n") ∧
      (⟨[recB, recB], [(Worker.nan, [recB, recB])]⟩ : Tally).fails =
        (⟨[recB], [(Worker.nan, [recB])]⟩ : Tally).fails ++ t0.fails :=
  (c9_run_state ⟨[recB], [(Worker.nan, [recB])]⟩ [recB]).2
    ⟨[recB, recB], [(Worker.nan, [recB, recB])]⟩
    "\x7bNaN\x7d test_b [] ... FAILED\n" (by decide)

/-- C10 counterexample: an exists-status record is a no-op before the
worker is ever resolved, so a record carrying the invalid tag worker-abc
with status exists does NOT abort the Outcome Aggregator, contradicting
the claim that it aborts on every such record. -/
theorem c10_counterexample :
    show_outcome ⟨[], []⟩ ⟨"t", "exists", ["worker-abc"], (none, none), []⟩ =
      Except.ok (⟨[], []⟩, "") ∧
    Except.ok ((⟨[], []⟩ : Tally), ("" : String)) ≠
      (Except.error "ValueError" : Except String (Tally × String)) := by
  exact ⟨by decide, by decide⟩

/-- C10 (amended): when the first worker- tag's remainder is not a valid
integer literal, the Worker Resolver always raises ValueError, and the
Outcome Aggregator aborts with that exception — before producing any
output — on every such record except an exists-status record, which is a
no-op that never consults the resolver. -/
theorem c10_invalid_worker (tags : List String) (tag : String)
    (hfind : tags.find? isWorkerTag = some tag)
    (hbad : pyInt? (tagRest tag) = none) :
    find_worker tags = Except.error "ValueError" ∧
    ∀ (st : Tally) (t : TestRec), t.tags = tags → t.status ≠ "exists" →
      show_outcome st t = Except.error "ValueError" := by
  have hfw : find_worker tags = Except.error "ValueError" := by
    simp only [find_worker, hfind, hbad]
  refine ⟨hfw, fun st t ht hne => ?_⟩
  simp only [show_outcome, if_neg hne, ht, hfw]

/-- C10 witness: the amended statement at the tag worker-abc and a
concrete fail record carrying it. -/
theorem c10_invalid_worker_witness :
    find_worker ["worker-abc"] = Except.error "ValueError" ∧
    show_outcome ⟨[], []⟩ ⟨"t", "fail", ["worker-abc"], (none, none), []⟩ =
      Except.error "ValueError" :=
  ⟨(c10_invalid_worker ["worker-abc"] "worker-abc" (by decide) (by decide)).1,
    (c10_invalid_worker ["worker-abc"] "worker-abc" (by decide) (by decide)).2
      ⟨[], []⟩ ⟨"t", "fail", ["worker-abc"], (none, none), []⟩ rfl (by decide)⟩

/-- The formatted integer part of get_duration, days * DAY_SECONDS +
seconds, is the floor of the whole elapsed time in seconds: no truncation
at 24 hours. -/
theorem duration_int_part (d : Int) :
    timedeltaDays d * DAY_SECONDS + timedeltaSeconds d = d / 1000000 := by
  unfold timedeltaDays timedeltaSeconds DAY_SECONDS dayUsec
  omega

/-- C5: the Duration Formatter is total: a missing endpoint (on either
side) yields the empty string; otherwise the output is
`<integer-seconds>.<6-digit-fractional-seconds>s` where the integer part is
the floor of the elapsed microseconds divided by 10^6 — so whole days are
converted to seconds rather than truncated — and the fractional part is
the nonnegative microsecond remainder; equal endpoints give `0.000000s`. -/
theorem c5_get_duration_total :
    (∀ e, get_duration (none, e) = "") ∧
    (∀ s, get_duration (s, none) = "") ∧
    (∀ s e : Int, get_duration (some s, some e) =
      toString ((e - s) / 1000000) ++ "." ++
        fmt06d ((e - s) % 1000000) ++ "s") ∧
    (∀ t : Int, get_duration (some t, some t) = "0.000000s") := by
  refine ⟨fun e => rfl, fun s => ?_, fun s e => ?_, fun t => ?_⟩
  · cases s <;> rfl
  · show toString (timedeltaDays (e - s) * DAY_SECONDS + timedeltaSeconds (e - s)) ++
      "." ++ fmt06d (timedeltaMicroseconds (e - s)) ++ "s" = _
    rw [duration_int_part]
    rfl
  · show toString (timedeltaDays (t - t) * DAY_SECONDS + timedeltaSeconds (t - t)) ++
      "." ++ fmt06d (timedeltaMicroseconds (t - t)) ++ "s" = _
    rw [duration_int_part, Int.sub_self]
    rfl

/-- findIdxC finds nothing exactly when the character is absent. -/
theorem findIdxC_eq_none_iff (c : Char) (l : List Char) :
    findIdxC c l = none ↔ c ∉ l := by
  induction l with
  | nil => simp [findIdxC]
  | cons x xs ih =>
    by_cases hx : x = c
    · subst hx
      simp [findIdxC]
    · simp [findIdxC, hx, ih, Ne.symm hx]

/-- A found index is a genuine first occurrence: nothing before it is the
character, and the list decomposes there. -/
theorem findIdxC_spec (c : Char) (l : List Char) (i : Nat)
    (h : findIdxC c l = some i) :
    c ∉ l.take i ∧ l.drop i = c :: l.drop (i + 1) := by
  induction l generalizing i with
  | nil => simp [findIdxC] at h
  | cons x xs ih =>
    by_cases hx : x = c
    · subst hx
      obtain rfl : i = 0 := by simpa [findIdxC, eq_comm] using h
      simp
    · simp only [findIdxC, if_neg hx, Option.map_eq_some'] at h
      obtain ⟨j, hj, hji⟩ := h
      subst hji
      obtain ⟨h1, h2⟩ := ih j hj
      refine ⟨?_, ?_⟩
      · simp only [List.take_succ_cons, List.mem_cons]
        rintro (rfl | hc)
        · exact hx rfl
        · exact h1 hc
      · simpa using h2

/-- findIdxC past a block not containing the character. -/
theorem findIdxC_append (c : Char) {l₁ : List Char} (l₂ : List Char)
    (h : c ∉ l₁) :
    findIdxC c (l₁ ++ l₂) = (findIdxC c l₂).map (· + l₁.length) := by
  induction l₁ with
  | nil => cases hfl : findIdxC c l₂ <;> simp [hfl]
  | cons x xs ih =>
    have hx : x ≠ c := fun hh => h (by simp [hh])
    have hm : c ∉ xs := fun hh => h (by simp [hh])
    have hstep : findIdxC c (x :: xs ++ l₂) =
        (findIdxC c (xs ++ l₂)).map (· + 1) := by
      simp [findIdxC, hx]
    rw [hstep, ih hm]
    cases hfl : findIdxC c l₂ with
    | none => simp
    | some j =>
      simp only [Option.map_some', Option.some.injEq, List.length_cons]
      omega

/-- The first occurrence of c in pre ++ c :: rest is at index at most the
length of pre. -/
theorem findIdxC_le (c : Char) (pre rest : List Char) :
    ∃ k, findIdxC c (pre ++ c :: rest) = some k ∧ k ≤ pre.length := by
  induction pre with
  | nil => exact ⟨0, by simp [findIdxC], by simp⟩
  | cons x xs ih =>
    by_cases hx : x = c
    · exact ⟨0, by simp [findIdxC, hx], by simp⟩
    · obtain ⟨k, hk, hle⟩ := ih
      refine ⟨k + 1, by simp [findIdxC, hx, hk], ?_⟩
      simp only [List.length_cons]
      omega

/-- stripDelim leaves the name unchanged when the firing condition fails. -/
theorem stripDelim_not_fire (opn cls : Char) (l : List Char)
    (h : ¬(0 < pyFind opn l ∧ pyFind opn l < pyFind cls l)) :
    stripDelim opn cls l = l := by
  simp only [stripDelim]
  rw [if_neg h]

/-- When both delimiters are found, the first at a positive index and
before the second, stripDelim removes the inclusive span between them. -/
theorem stripDelim_fire_idx (opn cls : Char) (l : List Char) (i j : Nat)
    (h1 : findIdxC opn l = some i) (h2 : findIdxC cls l = some j)
    (h3 : 0 < i) (h4 : i < j) :
    stripDelim opn cls l = l.take i ++ l.drop (j + 1) := by
  simp only [stripDelim, pyFind, h1, h2]
  rw [if_pos ⟨by exact_mod_cast h3, by exact_mod_cast h4⟩]
  simp

/-- stripDelim removes exactly the span from the first opening delimiter
(at a positive position) to the first closing delimiter of the whole
string when the latter lies after the former. -/
theorem stripDelim_fire (opn cls : Char) (hocl : opn ≠ cls)
    (pre mid suf : List Char) (hpre : pre ≠ []) (ho : opn ∉ pre)
    (hc1 : cls ∉ pre) (hc2 : cls ∉ mid) :
    stripDelim opn cls (pre ++ opn :: (mid ++ cls :: suf)) = pre ++ suf := by
  have hts : findIdxC opn (pre ++ opn :: (mid ++ cls :: suf)) =
      some pre.length := by
    rw [findIdxC_append opn _ ho]
    simp [findIdxC]
  have hc3 : cls ∉ pre ++ opn :: mid := by
    simp only [List.mem_append, List.mem_cons]
    rintro (h | h | h)
    · exact hc1 h
    · exact hocl h.symm
    · exact hc2 h
  have hte : findIdxC cls (pre ++ opn :: (mid ++ cls :: suf)) =
      some (pre.length + mid.length + 1) := by
    rw [show pre ++ opn :: (mid ++ cls :: suf) = (pre ++ opn :: mid) ++ cls :: suf
      by simp]
    rw [findIdxC_append cls _ hc3]
    simp [findIdxC]
    omega
  have hpos : 0 < pre.length := List.length_pos.mpr hpre
  rw [stripDelim_fire_idx opn cls _ pre.length (pre.length + mid.length + 1)
    hts hte hpos (by omega)]
  have htake : (pre ++ opn :: (mid ++ cls :: suf)).take pre.length = pre :=
    List.take_left pre _
  have hdrop : (pre ++ opn :: (mid ++ cls :: suf)).drop
      (pre.length + mid.length + 1 + 1) = suf := by
    rw [show pre ++ opn :: (mid ++ cls :: suf) = (pre ++ (opn :: mid ++ [cls])) ++ suf
      by simp]
    exact List.drop_left' (by simp; omega)
  rw [htake, hdrop]

/-- The string is unchanged when the opening delimiter is at position 0. -/
theorem stripDelim_zero (opn cls : Char) (rest : List Char) :
    stripDelim opn cls (opn :: rest) = opn :: rest := by
  apply stripDelim_not_fire
  have : pyFind opn (opn :: rest) = 0 := by simp [pyFind, findIdxC]
  rw [this]
  intro h
  exact absurd h.1 (by omega)

/-- The string is unchanged when it holds no closing delimiter at all. -/
theorem stripDelim_no_close (opn cls : Char) (l : List Char)
    (h : cls ∉ l) :
    stripDelim opn cls l = l := by
  apply stripDelim_not_fire
  have : pyFind cls l = -1 := by
    simp [pyFind, (findIdxC_eq_none_iff cls l).mpr h]
  rw [this]
  intro hcon
  omega

/-- The string is unchanged when the first closing delimiter lies before
the first opening one (the source looks up the first closer of the whole
string, not the first one after the opener). -/
theorem stripDelim_close_before (opn cls : Char) (hocl : opn ≠ cls)
    (pre rest : List Char) (ho : opn ∉ pre) :
    stripDelim opn cls (pre ++ cls :: rest) = pre ++ cls :: rest := by
  apply stripDelim_not_fire
  obtain ⟨k, hk, hle⟩ := findIdxC_le cls pre rest
  have hts : findIdxC opn (pre ++ cls :: rest) =
      (findIdxC opn (cls :: rest)).map (· + pre.length) :=
    findIdxC_append opn _ ho
  have hcr : findIdxC opn (cls :: rest) = (findIdxC opn rest).map (· + 1) := by
    simp [findIdxC, Ne.symm hocl]
  have hpfc : pyFind cls (pre ++ cls :: rest) = (k : Int) := by
    simp [pyFind, hk]
  rintro ⟨h1, h2⟩
  cases hor : findIdxC opn rest with
  | none =>
    have hpfo : pyFind opn (pre ++ cls :: rest) = -1 := by
      simp [pyFind, hts, hcr, hor]
    rw [hpfo] at h1
    omega
  | some j =>
    have hpfo : pyFind opn (pre ++ cls :: rest) =
        ((j + 1 + pre.length : Nat) : Int) := by
      simp [pyFind, hts, hcr, hor]
    rw [hpfo, hpfc] at h2
    omega

/-- C6 counterexample: the claim says any string containing a `[` before a
later `]` has that span removed, but in `a]b[c]d` the source finds the
FIRST `]` of the whole string (index 1, before the `[` at index 3), so the
guard tags_end > tags_start fails and the name is returned unchanged — not
the claim's predicted `a]bd`. -/
theorem c6_counterexample :
    cleanup_test_name "a]b[c]d".toList true false = "a]b[c]d".toList ∧
    "a]b[c]d".toList ≠ "a]bd".toList := by
  exact ⟨by decide, by decide⟩

/-- C6 (amended): the tag-stripping rule fires exactly when the first `[`
is at a positive position and the first `]` of the whole string lies after
it. Writing the input as pre ++ `[` :: mid ++ `]` :: suf with pre nonempty,
no `[` in pre and no `]` in pre or mid, the result is pre ++ suf; the
string is unchanged when the first `[` is at position 0, when no `]`
occurs at all, or when a `]` precedes every `[` (even if another `]`
follows the `[`); and scenario-stripping obeys the same rule with `(`/`)`. -/
theorem c6_strip_rule :
    (∀ pre mid suf : List Char, pre ≠ [] → '[' ∉ pre → ']' ∉ pre →
      ']' ∉ mid →
      cleanup_test_name (pre ++ '[' :: (mid ++ ']' :: suf)) true false =
        pre ++ suf) ∧
    (∀ rest : List Char,
      cleanup_test_name ('[' :: rest) true false = '[' :: rest) ∧
    (∀ l : List Char, ']' ∉ l → cleanup_test_name l true false = l) ∧
    (∀ pre rest : List Char, '[' ∉ pre →
      cleanup_test_name (pre ++ ']' :: rest) true false =
        pre ++ ']' :: rest) ∧
    (∀ pre mid suf : List Char, pre ≠ [] → '(' ∉ pre → ')' ∉ pre →
      ')' ∉ mid →
      cleanup_test_name (pre ++ '(' :: (mid ++ ')' :: suf)) false true =
        pre ++ suf) := by
  have hbr : ('[' : Char) ≠ ']' := by decide
  have hpa : ('(' : Char) ≠ ')' := by decide
  have htags : ∀ l : List Char,
      cleanup_test_name l true false = stripDelim '[' ']' l := fun l => rfl
  have hscen : ∀ l : List Char,
      cleanup_test_name l false true = stripDelim '(' ')' l := fun l => rfl
  refine ⟨fun pre mid suf h1 h2 h3 h4 => ?_, fun rest => ?_,
    fun l h => ?_, fun pre rest h => ?_, fun pre mid suf h1 h2 h3 h4 => ?_⟩
  · rw [htags]
    exact stripDelim_fire '[' ']' hbr pre mid suf h1 h2 h3 h4
  · rw [htags]
    exact stripDelim_zero '[' ']' rest
  · rw [htags]
    exact stripDelim_no_close '[' ']' l h
  · rw [htags]
    exact stripDelim_close_before '[' ']' hbr pre rest h
  · rw [hscen]
    exact stripDelim_fire '(' ')' hpa pre mid suf h1 h2 h3 h4

/-- C6 witness: instantiating the amended rule at t[a]b strips the span. -/
theorem c6_strip_rule_witness :
    cleanup_test_name ("t".toList ++ '[' :: ("a".toList ++ ']' :: "b".toList))
        true false = "t".toList ++ "b".toList :=
  c6_strip_rule.1 "t".toList "a".toList "b".toList (by decide) (by decide)
    (by decide) (by decide)

/-- One stripping pass is idempotent on inputs holding at most one opening
delimiter: firing consumes the only opener, so a second pass cannot fire. -/
theorem stripDelim_idem (opn cls : Char) (l : List Char)
    (h : l.count opn ≤ 1) :
    stripDelim opn cls (stripDelim opn cls l) = stripDelim opn cls l := by
  by_cases hg : 0 < pyFind opn l ∧ pyFind opn l < pyFind cls l
  · cases hio : findIdxC opn l with
    | none =>
      exfalso
      have : pyFind opn l = -1 := by simp [pyFind, hio]
      rw [this] at hg
      omega
    | some i =>
      cases hic : findIdxC cls l with
      | none =>
        exfalso
        have h1 : pyFind opn l = (i : Int) := by simp [pyFind, hio]
        have h2 : pyFind cls l = -1 := by simp [pyFind, hic]
        rw [h1, h2] at hg
        omega
      | some j =>
        have h1 : pyFind opn l = (i : Int) := by simp [pyFind, hio]
        have h2 : pyFind cls l = (j : Int) := by simp [pyFind, hic]
        rw [h1, h2] at hg
        have h3 : 0 < i := by exact_mod_cast hg.1
        have h4 : i < j := by exact_mod_cast hg.2
        rw [stripDelim_fire_idx opn cls l i j hio hic h3 h4]
        obtain ⟨hnt, hdec⟩ := findIdxC_spec opn l i hio
        have hcnt : l.count opn =
            (l.take i).count opn + (l.drop i).count opn := by
          rw [← List.count_append, List.take_append_drop]
        have h0 : (l.take i).count opn = 0 := List.count_eq_zero.mpr hnt
        have h5 : (l.drop i).count opn = (l.drop (i + 1)).count opn + 1 := by
          rw [hdec]
          simp [List.count_cons]
        have h6 : (l.drop (i + 1)).count opn = 0 := by omega
        have h7 : opn ∉ l.drop (i + 1) := List.count_eq_zero.mp h6
        have hdj : l.drop (j + 1) = (l.drop (i + 1)).drop (j - i) := by
          rw [List.drop_drop]
          congr 1
          omega
        have h8 : opn ∉ l.take i ++ l.drop (j + 1) := by
          simp only [List.mem_append]
          rintro (hm | hm)
          · exact hnt hm
          · rw [hdj] at hm
            exact h7 (List.mem_of_mem_drop hm)
        apply stripDelim_not_fire
        have h9 : pyFind opn (l.take i ++ l.drop (j + 1)) = -1 := by
          simp [pyFind, (findIdxC_eq_none_iff opn _).mpr h8]
        rw [h9]
        intro hcon
        omega
  · rw [stripDelim_not_fire opn cls l hg]
    exact stripDelim_not_fire opn cls l hg

/-- C7 counterexample: the Name Normalizer is not idempotent. With the
default switches, a first pass over a[b]c[d]e strips only the first
bracketed span, giving ac[d]e, and a second pass strips again, giving ace. -/
theorem c7_counterexample :
    cleanup_test_name (cleanup_test_name "a[b]c[d]e".toList true false)
        true false ≠
      cleanup_test_name "a[b]c[d]e".toList true false := by
  decide

/-- C7 (amended): the Name Normalizer is idempotent on its own output when
the enabled stripping rule's opening delimiter occurs at most once in the
input and the other rule is disabled: with scenario-stripping off (the
default) and at most one `[`, or with tag-stripping off and at most one
`(`, a second run is a no-op. In general a rerun can strip further spans. -/
theorem c7_idempotent (name : List Char)
    ( strip_tags strip_scenarios : Bool)
    (h : (strip_scenarios = false ∧ name.count '[' ≤ 1) ∨
      (strip_tags = false ∧ name.count '(' ≤ 1)) :
    cleanup_test_name (cleanup_test_name name strip_tags strip_scenarios)
        strip_tags strip_scenarios =
      cleanup_test_name name strip_tags strip_scenarios := by
  rcases h with ⟨hss, hcnt⟩ | ⟨hst, hcnt⟩
  · subst hss
    cases strip_tags with
    | false => rfl
    | true =>
      show stripDelim '[' ']' (stripDelim '[' ']' name) = stripDelim '[' ']' name
      exact stripDelim_idem '[' ']' name hcnt
  · subst hst
    cases strip_scenarios with
    | false => rfl
    | true =>
      show stripDelim '(' ')' (stripDelim '(' ')' name) = stripDelim '(' ')' name
      exact stripDelim_idem '(' ')' name hcnt

/-- C7 witness: a rerun on the stripped form of x[y] is a no-op. -/
theorem c7_idempotent_witness :
    cleanup_test_name (cleanup_test_name "x[y]".toList true false)
        true false =
      cleanup_test_name "x[y]".toList true false :=
  c7_idempotent "x[y]".toList true false (Or.inl ⟨rfl, by decide⟩)

/-- countStarts distributes over concatenation of writes. -/
theorem countStarts_append (tid : String) (a b : List OutWrite) :
    countStarts tid (a ++ b) = countStarts tid a + countStarts tid b :=
  List.countP_append _ _ _

/-- A step of the Starts observer for an already-emitted identifier writes
no start line for it and keeps it in the emitted set. -/
theorem status_emitted (s : Starts) (e : Event) (tid : String)
    (h : tid ∈ s.emitted) :
    countStarts tid (Starts.status s e).2 = 0 ∧
      tid ∈ (Starts.status s e).1.emitted := by
  unfold Starts.status
  split
  · split
    · exact ⟨rfl, h⟩
    · split <;> exact ⟨rfl, h⟩
  · split
    · rename_i hc
      have hne : e.test_id.getD "" ≠ tid := fun hh => hc.2 (hh ▸ h)
      split
      · refine ⟨?_, List.mem_cons_of_mem _ h⟩
        split <;> rfl
      · refine ⟨?_, List.mem_cons_of_mem _ h⟩
        rw [countStarts_append]
        have h1 : countStarts tid (if s.neednewline then [OutWrite.nl] else []) = 0 := by
          split <;> rfl
        have h2 : countStarts tid
            [OutWrite.startLine (workerLabel e.test_tags) (e.test_id.getD "")] = 0 := by
          simp [countStarts, OutWrite.isStartOf, hne]
        rw [h1, h2]
    · exact ⟨rfl, h⟩

/-- A step of the Starts observer writes at most one start line for any
identifier, and if it writes one the identifier is emitted afterwards. -/
theorem status_count_le (s : Starts) (e : Event) (tid : String) :
    countStarts tid (Starts.status s e).2 ≤ 1 ∧
      (1 ≤ countStarts tid (Starts.status s e).2 →
        tid ∈ (Starts.status s e).1.emitted) := by
  unfold Starts.status
  split
  · split
    · simp [countStarts]
    · split <;> simp [countStarts, OutWrite.isStartOf]
  · split
    · split
      · have h1 : countStarts tid (if s.neednewline then [OutWrite.nl] else []) = 0 := by
          split <;> rfl
        simp [h1]
      · rw [countStarts_append]
        have h1 : countStarts tid (if s.neednewline then [OutWrite.nl] else []) = 0 := by
          split <;> rfl
        rw [h1]
        by_cases he : e.test_id.getD "" = tid
        · subst he
          simp [countStarts, OutWrite.isStartOf]
        · have h2 : countStarts tid
              [OutWrite.startLine (workerLabel e.test_tags) (e.test_id.getD "")] = 0 := by
            simp [countStarts, OutWrite.isStartOf, he]
          simp [h2]
    · simp [countStarts]

/-- Over any event sequence from any state, an identifier already emitted
never gets another start line, and any identifier gets at most one. -/
theorem startsRun_count (tid : String) (events : List Event) :
    ∀ s : Starts,
      (tid ∈ s.emitted → countStarts tid (startsRun s events).2 = 0) ∧
      countStarts tid (startsRun s events).2 ≤ 1 := by
  induction events with
  | nil => exact fun s => ⟨fun _ => rfl, by simp [startsRun, countStarts]⟩
  | cons e rest ih =>
    intro s
    have hrun : (startsRun s (e :: rest)).2 =
        (Starts.status s e).2 ++ (startsRun (Starts.status s e).1 rest).2 := rfl
    have hB := status_count_le s e tid
    have hIH := ih (Starts.status s e).1
    constructor
    · intro hmem
      obtain ⟨hc0, hm'⟩ := status_emitted s e tid hmem
      rw [hrun, countStarts_append, hc0, hIH.1 hm']
    · rw [hrun, countStarts_append]
      by_cases h1 : 1 ≤ countStarts tid (Starts.status s e).2
      · have := hIH.1 (hB.2 h1)
        omega
      · have := hIH.2
        omega

/-- C8: the Start Tracker writes at most one start line per test
identifier over any whole run, however many inprogress events reference
the identifier and whether or not timestamps are present. -/
theorem c8_at_most_one_start (events : List Event) (tid : String) :
    countStarts tid (startsRun ⟨false, []⟩ events).2 ≤ 1 :=
  (startsRun_count tid events ⟨false, []⟩).2

/-- C1: evaluation of the Starts observer at the claim's failing input. An
`inprogress` event for the not-yet-emitted id `test_a`, worker tag
`worker-0` and a present timestamp produces NO output at all — the
start-line write statement is indented under the timestamp-absent branch
in the source — while the identifier is still marked emitted; the same
event without a timestamp does write the start line, whose rendering is
`: (0) test_a [start]\n`. This contradicts the claim (and the spec's
end-to-end scenario), which require the start line also when a timestamp
is present. -/
theorem c1_start_line_suppressed :
    Starts.status ⟨false, []⟩
        ⟨some "test_a", some "inprogress", some ["worker-0"], none, some 1000000⟩ =
      (⟨false, ["test_a"]⟩, []) ∧
    Starts.status ⟨false, []⟩
        ⟨some "test_a", some "inprogress", some ["worker-0"], none, none⟩ =
      (⟨false, ["test_a"]⟩, [OutWrite.startLine "(0) " "test_a"]) ∧
    OutWrite.render (OutWrite.startLine "(0) " "test_a") =
      ": (0) test_a [start]\n" := by
  exact ⟨by decide, by decide, by decide⟩
